import Mathlib

/-!
# Verification of the Sleep Diary sleep-metrics and time-arithmetic engine

Shallow embedding of the pure computational core of the Sleep Diary PWA
(`client/src/lib/sleepUtils.ts` and the aggregation logic of
`client/src/pages/dashboard.tsx`), together with proofs of the testable
properties stated in the specification.

Modelling conventions:
* The source represents a wall-clock time as an `"HH:MM"` string and splits it
  at the colon; we represent it as a structure with `hour` and `minute` fields,
  so `timeToMinutes` acts on the two numeric components directly.
* The source represents a calendar date as a zero-padded `"YYYY-MM-DD"` string
  and compares dates lexicographically; for such strings lexicographic string
  order coincides with lexicographic order on the `(year, month, day)` triple,
  which is how we represent dates.  JavaScript `Date` day arithmetic
  (`setDate(getDate() ± n)`) is embedded as calendar-correct successor /
  predecessor functions on that triple (proleptic Gregorian calendar, which is
  what `Date` implements for the years in question).
* JavaScript numbers are embedded as `Nat`/`Int` for the (integral) minute
  arithmetic and as `ℚ` for the efficiency percentage and averages.
-/

/-- A wall-clock time of day (source: an `"HH:MM"` string). -/
structure WallClockTime where
  hour : Nat
  minute : Nat
deriving DecidableEq, Repr

/-- A well-formed 24-hour wall-clock value: hour 0–23, minute 0–59. -/
def ValidTime (t : WallClockTime) : Prop := t.hour ≤ 23 ∧ t.minute ≤ 59

instance (t : WallClockTime) : Decidable (ValidTime t) := by
  unfold ValidTime; infer_instance

/-- `timeToMinutes` from `sleepUtils.ts`: `h * 60 + m`. -/
def timeToMinutes (t : WallClockTime) : Nat := t.hour * 60 + t.minute

/-- `timeDiffMinutes` from `sleepUtils.ts`:
`let s = timeToMinutes(start); let e = timeToMinutes(end);
 if (e <= s) e += 24 * 60; return e - s;`. -/
def timeDiffMinutes (start «end» : WallClockTime) : Nat :=
  let s := timeToMinutes start
  let e := timeToMinutes «end»
  if e ≤ s then e + 24 * 60 - s else e - s

/-- One night-waking interruption (source: `{ start: string; end: string }`). -/
structure NightWaking where
  start : WallClockTime
  «end» : WallClockTime
deriving DecidableEq, Repr

/-- Gregorian leap-year test (what `new Date(y, 1, 29)` implements). -/
def isLeap (y : Nat) : Bool := (y % 4 == 0 && y % 100 != 0) || y % 400 == 0

/-- Length of month `m` (1-based) of year `y`; 0 on out-of-range months. -/
def monthLen (y m : Nat) : Nat :=
  match m with
  | 1 => 31
  | 2 => if isLeap y then 29 else 28
  | 3 => 31
  | 4 => 30
  | 5 => 31
  | 6 => 30
  | 7 => 31
  | 8 => 31
  | 9 => 30
  | 10 => 31
  | 11 => 30
  | 12 => 31
  | _ => 0

/-- A calendar date (source: a `"YYYY-MM-DD"` string). -/
structure Date where
  year : Nat
  month : Nat
  day : Nat
deriving DecidableEq, Repr

/-- A well-formed calendar date: year ≥ 1, month 1–12, day within the month. -/
def ValidDate (d : Date) : Prop :=
  1 ≤ d.year ∧ 1 ≤ d.month ∧ d.month ≤ 12 ∧ 1 ≤ d.day ∧ d.day ≤ monthLen d.year d.month

instance (d : Date) : Decidable (ValidDate d) := by
  unfold ValidDate; infer_instance

/-- The per-night record consumed by `calculateMetrics`, `getSleepQuality` and
the dashboard.  `naps` is the optional duration list (`naps?: Array<{minutes}>`,
absent or empty both fail the `entry.naps && entry.naps.length > 0` test, so an
absent list is embedded as `[]`); `napStart`/`napEnd` are the legacy start/end
pair (`string | null`). `drinks` and `weed` are the dashboard's two lifestyle
factors; `date` is the record's calendar date. -/
structure SleepEntry where
  date : Date
  bedtime : WallClockTime
  sleepTime : WallClockTime
  wakeTime : WallClockTime
  nightWakings : List NightWaking
  napStart : Option WallClockTime
  napEnd : Option WallClockTime
  naps : List Nat
  feeling : Nat
  drinks : Nat
  weed : Bool
deriving DecidableEq, Repr

/-- The derived metrics returned by `calculateMetrics`. -/
structure NightMetrics where
  timeInBed : Int
  totalSleep : Int
  sleepEfficiency : ℚ
  sleepLatency : Int
  totalWakingTime : Int
  napDuration : Int
  adjustedTotal : Int
deriving DecidableEq, Repr

/-- `calculateMetrics` from `sleepUtils.ts` (the later, nap-list-aware
definition, which is the one in scope at the exports). -/
def calculateMetrics (entry : SleepEntry) : NightMetrics :=
  let timeInBed : Int := timeDiffMinutes entry.bedtime entry.wakeTime
  let sleepLatency : Int := timeDiffMinutes entry.bedtime entry.sleepTime
  let totalWakingTime : Int :=
    entry.nightWakings.foldl
      (fun sum w => sum + (timeDiffMinutes w.start w.«end» : Int)) 0
  let totalSleep : Int := max 0 (timeInBed - sleepLatency - totalWakingTime)
  let sleepEfficiency : ℚ :=
    if timeInBed > 0 then (totalSleep : ℚ) / (timeInBed : ℚ) * 100 else 0
  let napDuration : Int :=
    if entry.naps.length > 0 then
      entry.naps.foldl (fun sum n => sum + Int.ofNat n) 0
    else
      match entry.napStart, entry.napEnd with
      | some ns, some ne => (timeDiffMinutes ns ne : Int)
      | _, _ => 0
  { timeInBed := timeInBed
    totalSleep := totalSleep
    sleepEfficiency := sleepEfficiency
    sleepLatency := sleepLatency
    totalWakingTime := totalWakingTime
    napDuration := napDuration
    adjustedTotal := totalSleep + napDuration }

/-- The three quality tiers (source: `type SleepQuality = "good" | "ok" | "poor"`). -/
inductive SleepQuality where
  | good
  | ok
  | poor
deriving DecidableEq, Repr

/-- `getSleepQuality` from `sleepUtils.ts`: the fixed additive scoring rubric. -/
def getSleepQuality (entry : SleepEntry) : SleepQuality :=
  let m := calculateMetrics entry
  let score : Nat :=
    (if m.sleepEfficiency ≥ 85 then 2 else if m.sleepEfficiency ≥ 75 then 1 else 0)
    + (if (m.totalSleep : ℚ) / 60 ≥ 7 then 2 else if (m.totalSleep : ℚ) / 60 ≥ 6 then 1 else 0)
    + (if entry.feeling ≥ 4 then 2 else if entry.feeling ≥ 3 then 1 else 0)
  if score ≥ 5 then .good else if score ≥ 3 then .ok else .poor

/-! ## Basic facts about the time arithmetic -/

lemma timeToMinutes_le (t : WallClockTime) (h : ValidTime t) :
    timeToMinutes t ≤ 1439 := by
  obtain ⟨h1, h2⟩ := h
  unfold timeToMinutes
  omega

lemma timeDiffMinutes_pos (s e : WallClockTime) (hs : ValidTime s) :
    1 ≤ timeDiffMinutes s e := by
  have := timeToMinutes_le s hs
  unfold timeDiffMinutes
  dsimp only
  split <;> omega

lemma timeDiffMinutes_le_1440 (s e : WallClockTime) (he : ValidTime e) :
    timeDiffMinutes s e ≤ 1440 := by
  have := timeToMinutes_le e he
  unfold timeDiffMinutes
  dsimp only
  split <;> omega

/-! ## Claim theorems: time arithmetic -/

/-- C1: for well-formed wall-clock times, `timeDiffMinutes` (the spec's
`elapsedMinutes`) is nonnegative and below 2880, and on equal start and end
times it returns exactly 1440 (equal times always roll over a full 24 h). -/
theorem timeDiffMinutes_range_and_rollover (s e t : WallClockTime)
    (hs : ValidTime s) (he : ValidTime e) (_ht : ValidTime t) :
    0 ≤ timeDiffMinutes s e ∧ timeDiffMinutes s e < 2880 ∧
      timeDiffMinutes t t = 1440 := by
  refine ⟨Nat.zero_le _, ?_, ?_⟩
  · have h1 := timeToMinutes_le s hs
    have h2 := timeToMinutes_le e he
    unfold timeDiffMinutes
    dsimp only
    split <;> omega
  · unfold timeDiffMinutes
    dsimp only
    rw [if_pos (le_refl _)]
    omega

theorem timeDiffMinutes_range_and_rollover_witness :
    ValidTime ⟨22, 30⟩ ∧ ValidTime ⟨7, 0⟩ ∧ ValidTime ⟨0, 15⟩ ∧
      (0 ≤ timeDiffMinutes ⟨22, 30⟩ ⟨7, 0⟩ ∧
        timeDiffMinutes ⟨22, 30⟩ ⟨7, 0⟩ < 2880 ∧
        timeDiffMinutes ⟨0, 15⟩ ⟨0, 15⟩ = 1440) :=
  ⟨by decide, by decide, by decide,
    timeDiffMinutes_range_and_rollover ⟨22, 30⟩ ⟨7, 0⟩ ⟨0, 15⟩
      (by decide) (by decide) (by decide)⟩

/-- C9: for well-formed wall-clock times, `timeDiffMinutes` in fact lands in
the tighter interval [1, 1440]: it is strictly positive and never exceeds a
full day. -/
theorem timeDiffMinutes_tight_range (s e : WallClockTime)
    (hs : ValidTime s) (he : ValidTime e) :
    1 ≤ timeDiffMinutes s e ∧ timeDiffMinutes s e ≤ 1440 :=
  ⟨timeDiffMinutes_pos s e hs, timeDiffMinutes_le_1440 s e he⟩

theorem timeDiffMinutes_tight_range_witness :
    ValidTime ⟨23, 45⟩ ∧ ValidTime ⟨0, 15⟩ ∧
      (1 ≤ timeDiffMinutes ⟨23, 45⟩ ⟨0, 15⟩ ∧
        timeDiffMinutes ⟨23, 45⟩ ⟨0, 15⟩ ≤ 1440) :=
  ⟨by decide, by decide,
    timeDiffMinutes_tight_range ⟨23, 45⟩ ⟨0, 15⟩ (by decide) (by decide)⟩

/-! ## Claim theorems: night metrics -/

lemma foldl_add_eq_sum {α : Type} (f : α → Int) (l : List α) (a : Int) :
    l.foldl (fun s x => s + f x) a = a + (l.map f).sum := by
  induction l generalizing a with
  | nil => simp
  | cons x xs ih => simp [List.foldl_cons, ih, add_assoc]

/-- C2: `calculateMetrics` computes total sleep as
`max 0 (timeInBed - sleepLatency - interruption minutes)`, where the
interruption minutes are the sum of `timeDiffMinutes` over the night wakings;
in particular total sleep is never negative, for any input. -/
theorem calculateMetrics_totalSleep_clamped (e : SleepEntry) :
    (calculateMetrics e).totalSleep =
      max 0 ((timeDiffMinutes e.bedtime e.wakeTime : Int)
        - (timeDiffMinutes e.bedtime e.sleepTime : Int)
        - (e.nightWakings.map (fun w => (timeDiffMinutes w.start w.«end» : Int))).sum)
    ∧ 0 ≤ (calculateMetrics e).totalSleep := by
  have hfold : e.nightWakings.foldl
      (fun sum w => sum + (timeDiffMinutes w.start w.«end» : Int)) 0 =
      (e.nightWakings.map (fun w => (timeDiffMinutes w.start w.«end» : Int))).sum := by
    rw [foldl_add_eq_sum (fun (w : NightWaking) => (timeDiffMinutes w.start w.«end» : Int))]
    simp
  constructor
  · simp only [calculateMetrics, hfold]
  · simp only [calculateMetrics]
    exact le_max_left 0 _

/-- The additive quality score exactly as the specification describes it:
efficiency ≥85 % → +2, ≥75 % → +1; total sleep ≥7 h → +2, ≥6 h → +1;
feeling ≥4 → +2, ≥3 → +1. -/
def sleepScore (e : SleepEntry) : Nat :=
  let m := calculateMetrics e
  (if m.sleepEfficiency ≥ 85 then 2 else if m.sleepEfficiency ≥ 75 then 1 else 0)
  + (if (m.totalSleep : ℚ) / 60 ≥ 7 then 2 else if (m.totalSleep : ℚ) / 60 ≥ 6 then 1 else 0)
  + (if e.feeling ≥ 4 then 2 else if e.feeling ≥ 3 then 1 else 0)

/-- C3: `getSleepQuality` realises the additive rubric: its result is `good`
iff the score is ≥ 5, `ok` iff the score is in [3,5), and `poor` iff the score
is < 3; the score never exceeds 6, and the three tiers are exhaustive and
mutually exclusive (each score falls in exactly one tier). -/
theorem getSleepQuality_rubric (e : SleepEntry) :
    sleepScore e ≤ 6
    ∧ (getSleepQuality e = .good ↔ 5 ≤ sleepScore e)
    ∧ (getSleepQuality e = .ok ↔ 3 ≤ sleepScore e ∧ sleepScore e < 5)
    ∧ (getSleepQuality e = .poor ↔ sleepScore e < 3) := by
  have hq : getSleepQuality e =
      if 5 ≤ sleepScore e then .good else if 3 ≤ sleepScore e then .ok else .poor := rfl
  have hbound : sleepScore e ≤ 6 := by
    unfold sleepScore
    dsimp only
    split_ifs <;> omega
  refine ⟨hbound, ?_, ?_, ?_⟩
  · rw [hq]
    split
    · simp; omega
    · split <;> simp <;> omega
  · rw [hq]
    split
    · simp; omega
    · split <;> simp <;> omega
  · rw [hq]
    split
    · simp; omega
    · split <;> simp <;> omega

/-- C4: nap minutes come from the duration list when it is non-empty (its sum),
else from the start/end pair when both are present (via `timeDiffMinutes`),
else 0; the duration-list mode takes precedence (the first conjunct holds
whatever `napStart`/`napEnd` are); and adjusted total = total sleep + naps. -/
theorem calculateMetrics_napDuration_modes (e : SleepEntry) :
    (e.naps ≠ [] →
      (calculateMetrics e).napDuration = (e.naps.map Int.ofNat).sum)
    ∧ (∀ ns ne, e.naps = [] → e.napStart = some ns → e.napEnd = some ne →
        (calculateMetrics e).napDuration = (timeDiffMinutes ns ne : Int))
    ∧ (e.naps = [] → (e.napStart = none ∨ e.napEnd = none) →
        (calculateMetrics e).napDuration = 0)
    ∧ (calculateMetrics e).adjustedTotal =
        (calculateMetrics e).totalSleep + (calculateMetrics e).napDuration := by
  have hfold : e.naps.foldl (fun sum n => sum + Int.ofNat n) 0 =
      (e.naps.map Int.ofNat).sum := by
    rw [foldl_add_eq_sum Int.ofNat]
    simp
  refine ⟨?_, ?_, ?_, rfl⟩
  · intro hne
    have hlen : e.naps.length > 0 := List.length_pos.mpr hne
    simp only [calculateMetrics, if_pos hlen, hfold]
  · intro ns ne hnil hs hn
    have hlen : ¬ e.naps.length > 0 := by simp [hnil]
    simp only [calculateMetrics, if_neg hlen, hs, hn]
  · intro hnil hnone
    have hlen : ¬ e.naps.length > 0 := by simp [hnil]
    rcases hnone with h | h
    all_goals simp only [calculateMetrics, if_neg hlen, h]
    all_goals
      rcases hs : e.napStart with _ | ns <;> rcases hn : e.napEnd with _ | ne <;>
        simp_all

theorem calculateMetrics_napDuration_modes_witness :
    let e : SleepEntry :=
      { date := ⟨2024, 5, 1⟩, bedtime := ⟨22, 30⟩, sleepTime := ⟨23, 0⟩,
        wakeTime := ⟨7, 0⟩, nightWakings := [], napStart := some ⟨13, 0⟩,
        napEnd := some ⟨14, 0⟩, naps := [20, 30], feeling := 4,
        drinks := 0, weed := false }
    e.naps ≠ [] ∧ (calculateMetrics e).napDuration = 50 := by
  refine ⟨by decide, ?_⟩
  have h := (calculateMetrics_napDuration_modes
    { date := ⟨2024, 5, 1⟩, bedtime := ⟨22, 30⟩, sleepTime := ⟨23, 0⟩,
      wakeTime := ⟨7, 0⟩, nightWakings := [], napStart := some ⟨13, 0⟩,
      napEnd := some ⟨14, 0⟩, naps := [20, 30], feeling := 4,
      drinks := 0, weed := false }).1 (by decide)
  rw [h]
  decide

lemma totalWaking_nonneg (e : SleepEntry) :
    0 ≤ e.nightWakings.foldl
      (fun sum w => sum + (timeDiffMinutes w.start w.«end» : Int)) 0 := by
  rw [foldl_add_eq_sum (fun (w : NightWaking) => (timeDiffMinutes w.start w.«end» : Int))]
  simp only [zero_add]
  apply List.sum_nonneg
  intro x hx
  simp only [List.mem_map] at hx
  obtain ⟨w, _, rfl⟩ := hx
  exact Int.natCast_nonneg _

/-- C10: for records built from well-formed times, time in bed and sleep
latency are at least 1 minute (so the `timeInBed == 0` default branch of the
efficiency computation is unreachable), total sleep is at most
`timeInBed - 1`, and the sleep efficiency always lies in [0, 100) — in
particular strictly below 100. -/
theorem calculateMetrics_efficiency_bounds (e : SleepEntry)
    (hb : ValidTime e.bedtime) (_hw : ValidTime e.wakeTime) :
    1 ≤ (calculateMetrics e).timeInBed
    ∧ 1 ≤ (calculateMetrics e).sleepLatency
    ∧ (calculateMetrics e).totalSleep ≤ (calculateMetrics e).timeInBed - 1
    ∧ 0 ≤ (calculateMetrics e).sleepEfficiency
    ∧ (calculateMetrics e).sleepEfficiency < 100 := by
  have hT := timeDiffMinutes_pos e.bedtime e.wakeTime hb
  have hL := timeDiffMinutes_pos e.bedtime e.sleepTime hb
  have hW := totalWaking_nonneg e
  have h1 : (calculateMetrics e).timeInBed =
      (timeDiffMinutes e.bedtime e.wakeTime : Int) := rfl
  have h2 : (calculateMetrics e).sleepLatency =
      (timeDiffMinutes e.bedtime e.sleepTime : Int) := rfl
  have h3 : (calculateMetrics e).totalSleep =
      max 0 ((calculateMetrics e).timeInBed - (calculateMetrics e).sleepLatency
        - e.nightWakings.foldl
            (fun sum w => sum + (timeDiffMinutes w.start w.«end» : Int)) 0) := rfl
  have h4 : (calculateMetrics e).sleepEfficiency =
      if (calculateMetrics e).timeInBed > 0 then
        ((calculateMetrics e).totalSleep : ℚ) / ((calculateMetrics e).timeInBed : ℚ) * 100
      else 0 := rfl
  have htib : 1 ≤ (calculateMetrics e).timeInBed := by rw [h1]; exact_mod_cast hT
  have hlat : 1 ≤ (calculateMetrics e).sleepLatency := by rw [h2]; exact_mod_cast hL
  have hts_nonneg : 0 ≤ (calculateMetrics e).totalSleep := by
    rw [h3]; exact le_max_left 0 _
  have hts : (calculateMetrics e).totalSleep ≤ (calculateMetrics e).timeInBed - 1 := by
    rw [h3]
    apply max_le <;> omega
  refine ⟨htib, hlat, hts, ?_, ?_⟩
  · rw [h4, if_pos (by omega)]
    apply mul_nonneg _ (by norm_num)
    apply div_nonneg
    · exact_mod_cast hts_nonneg
    · have : (0 : Int) ≤ (calculateMetrics e).timeInBed := by omega
      exact_mod_cast this
  · rw [h4, if_pos (by omega)]
    have htibQ : (0 : ℚ) < ((calculateMetrics e).timeInBed : ℚ) := by
      exact_mod_cast (show (0 : Int) < (calculateMetrics e).timeInBed by omega)
    have hltQ : ((calculateMetrics e).totalSleep : ℚ) <
        ((calculateMetrics e).timeInBed : ℚ) := by
      exact_mod_cast (show (calculateMetrics e).totalSleep <
        (calculateMetrics e).timeInBed by omega)
    have hdiv : ((calculateMetrics e).totalSleep : ℚ) /
        ((calculateMetrics e).timeInBed : ℚ) < 1 := (div_lt_one htibQ).mpr hltQ
    calc ((calculateMetrics e).totalSleep : ℚ) /
          ((calculateMetrics e).timeInBed : ℚ) * 100
        < 1 * 100 := by
          exact mul_lt_mul_of_pos_right hdiv (by norm_num)
      _ = 100 := by norm_num

theorem calculateMetrics_efficiency_bounds_witness :
    let e : SleepEntry :=
      { date := ⟨2024, 5, 1⟩, bedtime := ⟨22, 30⟩, sleepTime := ⟨23, 0⟩,
        wakeTime := ⟨7, 0⟩, nightWakings := [⟨⟨3, 15⟩, ⟨3, 35⟩⟩],
        napStart := none, napEnd := none, naps := [], feeling := 3,
        drinks := 0, weed := false }
    ValidTime e.bedtime ∧ ValidTime e.wakeTime ∧
      (1 ≤ (calculateMetrics e).timeInBed
        ∧ 1 ≤ (calculateMetrics e).sleepLatency
        ∧ (calculateMetrics e).totalSleep ≤ (calculateMetrics e).timeInBed - 1
        ∧ 0 ≤ (calculateMetrics e).sleepEfficiency
        ∧ (calculateMetrics e).sleepEfficiency < 100) :=
  ⟨by decide, by decide,
    calculateMetrics_efficiency_bounds _ (by decide) (by decide)⟩

/-! ## The calendar model

The source manipulates dates through the JavaScript `Date` object
(`parseDate` / `toDateString` / `setDate` / `getDay` / `getDate`), which
implements the Gregorian calendar for the years the app can produce.  We embed
a date as a `(year, month, day)` triple (month 1–12, as in the date strings;
the 0-based JavaScript month is converted at each use site, mirroring the
`month - 1` / `month + 1` conversions in the source). -/

/-- Total days of months `1..m` of year `y`. -/
def monthsDays (y : Nat) : Nat → Nat
  | 0 => 0
  | m + 1 => monthsDays y m + monthLen y (m + 1)

/-- Total days of years `1..n` (proleptic Gregorian). -/
def yearDays : Nat → Nat
  | 0 => 0
  | n + 1 => yearDays n + monthsDays (n + 1) 12

/-- Rata-die style day index: `dayNumber ⟨1,1,1⟩ = 0` and each next calendar
day adds 1.  Used to relate the source's string-lexicographic date order and
`Date`-object day arithmetic. -/
def dayNumber (d : Date) : Nat :=
  yearDays (d.year - 1) + monthsDays d.year (d.month - 1) + (d.day - 1)

/-- Lexicographic strict order on dates: what `<` on two zero-padded
`"YYYY-MM-DD"` strings computes. -/
def dateLtB (a b : Date) : Bool :=
  a.year < b.year
    || (a.year == b.year
        && (a.month < b.month || (a.month == b.month && a.day < b.day)))

/-- Lexicographic order on dates: what `<=` on two zero-padded
`"YYYY-MM-DD"` strings computes. -/
def dateLeB (a b : Date) : Bool := dateLtB a b || a == b

/-- The calendar successor: what `addDays(dateStr, 1)` from `sleepUtils.ts`
(`parseDate` → `setDate(getDate() + 1)` → `toDateString`) computes on a valid
date. -/
def nextDay (d : Date) : Date :=
  if d.day < monthLen d.year d.month then ⟨d.year, d.month, d.day + 1⟩
  else if d.month < 12 then ⟨d.year, d.month + 1, 1⟩
  else ⟨d.year + 1, 1, 1⟩

/-- The calendar predecessor: what `addDays(dateStr, -1)` (and the dashboard's
`setDate(getDate() - n)` loop, one step at a time) computes on a valid date. -/
def prevDay (d : Date) : Date :=
  if 1 < d.day then ⟨d.year, d.month, d.day - 1⟩
  else if 1 < d.month then ⟨d.year, d.month - 1, monthLen d.year (d.month - 1)⟩
  else ⟨d.year - 1, 12, 31⟩

/-- `n` calendar days earlier: `setDate(getDate() - n)`. -/
def subDays (n : Nat) (d : Date) : Date := prevDay^[n] d

/-- Day of week with 0 = Sunday (JavaScript `Date.prototype.getDay`): day
number 0 is 1 January of year 1, a Monday in the proleptic Gregorian
calendar. -/
def dayOfWeek (d : Date) : Nat := (dayNumber d + 1) % 7

/-- `getDaysInRange`'s `while (current <= endDate)` loop, with an explicit
iteration bound (the loop runs `dayNumber e + 1 - dayNumber s` times on valid
input, which is the bound `getDaysInRange` passes). -/
def getDaysInRangeAux : Nat → Date → Date → List Date
  | 0, _, _ => []
  | fuel + 1, cur, e =>
    if dateLeB cur e then cur :: getDaysInRangeAux fuel (nextDay cur) e else []

/-- `getDaysInRange` from `sleepUtils.ts`: push `current` and step
`current = addDays(current, 1)` while `current <= endDate` (string
comparison). -/
def getDaysInRange (startDate endDate : Date) : List Date :=
  getDaysInRangeAux (dayNumber endDate + 1 - dayNumber startDate) startDate endDate

/-! ## Facts about the calendar model -/

lemma monthLen_bounds (y m : Nat) (h1 : 1 ≤ m) (h2 : m ≤ 12) :
    28 ≤ monthLen y m ∧ monthLen y m ≤ 31 := by
  interval_cases m <;> simp only [monthLen] <;> first | omega | (split_ifs <;> omega)

lemma monthsDays_succ (y m : Nat) :
    monthsDays y (m + 1) = monthsDays y m + monthLen y (m + 1) := rfl

lemma yearDays_succ (n : Nat) :
    yearDays (n + 1) = yearDays n + monthsDays (n + 1) 12 := rfl

lemma monthsDays_le (y : Nat) {m m' : Nat} (h : m ≤ m') :
    monthsDays y m ≤ monthsDays y m' := by
  obtain ⟨k, rfl⟩ := Nat.exists_eq_add_of_le h
  induction k with
  | zero => simp
  | succ k ih =>
    have hstep : m + (k + 1) = (m + k) + 1 := by omega
    rw [hstep, monthsDays_succ]
    omega

lemma monthsDays_peel (y m : Nat) (h : 1 ≤ m) :
    monthsDays y m = monthsDays y (m - 1) + monthLen y m := by
  obtain ⟨k, rfl⟩ : ∃ k, m = k + 1 := ⟨m - 1, by omega⟩
  simp [monthsDays_succ]

lemma yearDays_le {n n' : Nat} (h : n ≤ n') : yearDays n ≤ yearDays n' := by
  obtain ⟨k, rfl⟩ := Nat.exists_eq_add_of_le h
  induction k with
  | zero => simp
  | succ k ih =>
    have hstep : n + (k + 1) = (n + k) + 1 := by omega
    rw [hstep, yearDays_succ]
    omega

lemma yearDays_peel (y : Nat) (h : 1 ≤ y) :
    yearDays y = yearDays (y - 1) + monthsDays y 12 := by
  obtain ⟨k, rfl⟩ : ∃ k, y = k + 1 := ⟨y - 1, by omega⟩
  simp [yearDays_succ]

lemma monthsDays_12_ge (y : Nat) : 31 ≤ monthsDays y 12 := by
  have h1 : monthsDays y 1 = 31 := rfl
  have := monthsDays_le y (show 1 ≤ 12 by omega)
  omega

/-- The day index bound inside a year: a valid date's in-year offset is below
the year's total day count. -/
lemma inYear_lt (y m d : Nat) (hm1 : 1 ≤ m) (hm2 : m ≤ 12) (hd1 : 1 ≤ d)
    (hd2 : d ≤ monthLen y m) :
    monthsDays y (m - 1) + (d - 1) < monthsDays y 12 := by
  have hpeel := monthsDays_peel y m hm1
  have hmono := monthsDays_le y hm2
  omega

lemma dayNumber_nextDay (d : Date) (h : ValidDate d) :
    dayNumber (nextDay d) = dayNumber d + 1 := by
  obtain ⟨hy, hm1, hm2, hd1, hd2⟩ := h
  unfold nextDay dayNumber
  split
  · dsimp only
    omega
  · rename_i hlt
    split
    · rename_i hmlt
      dsimp only
      simp only [Nat.add_sub_cancel]
      have hstep := monthsDays_peel d.year d.month hm1
      omega
    · rename_i hmge
      dsimp only
      simp only [Nat.add_sub_cancel, Nat.sub_self]
      have hm : d.month = 12 := by omega
      have h31 : monthLen d.year 12 = 31 := rfl
      have hys := yearDays_peel d.year hy
      have hms : monthsDays d.year 12 = monthsDays d.year 11 + monthLen d.year 12 :=
        monthsDays_succ d.year 11
      have hz : monthsDays (d.year + 1) 0 = 0 := rfl
      rw [hm] at hd2 hlt ⊢
      simp only [show (12 : Nat) - 1 = 11 from rfl]
      omega

lemma validDate_nextDay (d : Date) (h : ValidDate d) : ValidDate (nextDay d) := by
  obtain ⟨hy, hm1, hm2, hd1, hd2⟩ := h
  unfold nextDay
  split
  · refine ⟨?_, ?_, ?_, ?_, ?_⟩ <;> dsimp only <;> omega
  · split
    · rename_i hmlt
      have hb := monthLen_bounds d.year (d.month + 1) (by omega) (by omega)
      refine ⟨?_, ?_, ?_, ?_, ?_⟩ <;> dsimp only <;> omega
    · have h31 : monthLen (d.year + 1) 1 = 31 := rfl
      refine ⟨?_, ?_, ?_, ?_, ?_⟩ <;> dsimp only <;> omega

lemma dateLtB_iff (a b : Date) :
    dateLtB a b = true ↔
      (a.year < b.year
        ∨ (a.year = b.year
            ∧ (a.month < b.month ∨ (a.month = b.month ∧ a.day < b.day)))) := by
  unfold dateLtB
  simp [Bool.or_eq_true, Bool.and_eq_true, decide_eq_true_eq]

lemma dateLeB_iff (a b : Date) :
    dateLeB a b = true ↔ (dateLtB a b = true ∨ a = b) := by
  unfold dateLeB
  simp [Bool.or_eq_true, beq_iff_eq]

lemma dateLt_total (a b : Date) :
    dateLtB a b = true ∨ a = b ∨ dateLtB b a = true := by
  rw [dateLtB_iff, dateLtB_iff]
  rcases Nat.lt_trichotomy a.year b.year with h | h | h
  · tauto
  · rcases Nat.lt_trichotomy a.month b.month with h2 | h2 | h2
    · tauto
    · rcases Nat.lt_trichotomy a.day b.day with h3 | h3 | h3
      · tauto
      · refine Or.inr (Or.inl ?_)
        cases a; cases b
        simp_all
      · tauto
    · tauto
  · tauto

lemma dayNumber_lt_of_dateLt (a b : Date) (ha : ValidDate a) (hb : ValidDate b)
    (h : dateLtB a b = true) : dayNumber a < dayNumber b := by
  obtain ⟨hay, ham1, ham2, had1, had2⟩ := ha
  obtain ⟨hby, hbm1, hbm2, hbd1, hbd2⟩ := hb
  rw [dateLtB_iff] at h
  unfold dayNumber
  rcases h with h | ⟨hy, h⟩
  · -- strictly earlier year: a stays below the start of the next year
    have hlt := inYear_lt a.year a.month a.day ham1 ham2 had1 had2
    have hpe := yearDays_peel a.year hay
    have hmono : yearDays a.year ≤ yearDays (b.year - 1) := yearDays_le (by omega)
    omega
  · rcases h with h | ⟨hm, hd⟩
    · -- same year, strictly earlier month
      have hpeel := monthsDays_peel a.year a.month ham1
      have hmono : monthsDays a.year a.month ≤ monthsDays a.year (b.month - 1) :=
        monthsDays_le a.year (by omega)
      rw [hy] at had2 hpeel hmono ⊢
      omega
    · -- same year and month, strictly earlier day
      rw [hy, hm]
      omega

lemma dateLtB_of_dayNumber_lt (a b : Date) (ha : ValidDate a) (hb : ValidDate b)
    (h : dayNumber a < dayNumber b) : dateLtB a b = true := by
  rcases dateLt_total a b with hlt | heq | hlt
  · exact hlt
  · subst heq; omega
  · have := dayNumber_lt_of_dateLt b a hb ha hlt
    omega

lemma dateLtB_iff_dayNumber (a b : Date) (ha : ValidDate a) (hb : ValidDate b) :
    dateLtB a b = true ↔ dayNumber a < dayNumber b :=
  ⟨dayNumber_lt_of_dateLt a b ha hb, dateLtB_of_dayNumber_lt a b ha hb⟩

lemma dayNumber_inj (a b : Date) (ha : ValidDate a) (hb : ValidDate b)
    (h : dayNumber a = dayNumber b) : a = b := by
  rcases dateLt_total a b with hlt | heq | hlt
  · have := dayNumber_lt_of_dateLt a b ha hb hlt; omega
  · exact heq
  · have := dayNumber_lt_of_dateLt b a hb ha hlt; omega

lemma dateLeB_iff_dayNumber (a b : Date) (ha : ValidDate a) (hb : ValidDate b) :
    dateLeB a b = true ↔ dayNumber a ≤ dayNumber b := by
  rw [dateLeB_iff]
  constructor
  · rintro (hlt | rfl)
    · exact le_of_lt (dayNumber_lt_of_dateLt a b ha hb hlt)
    · exact le_refl _
  · intro hle
    rcases Nat.lt_or_ge (dayNumber a) (dayNumber b) with hlt | hge
    · exact Or.inl (dateLtB_of_dayNumber_lt a b ha hb hlt)
    · exact Or.inr (dayNumber_inj a b ha hb (by omega))

lemma nextDay_iter (a : Date) (ha : ValidDate a) (i : Nat) :
    ValidDate (nextDay^[i] a) ∧ dayNumber (nextDay^[i] a) = dayNumber a + i := by
  induction i with
  | zero => exact ⟨by simpa using ha, by simp⟩
  | succ i ih =>
    rw [Function.iterate_succ_apply']
    refine ⟨validDate_nextDay _ ih.1, ?_⟩
    rw [dayNumber_nextDay _ ih.1, ih.2]
    omega

lemma getDaysInRangeAux_eq :
    ∀ (n : Nat) (cur e : Date), ValidDate cur → ValidDate e →
      dayNumber e + 1 - dayNumber cur = n →
      getDaysInRangeAux n cur e = (List.range n).map (fun i => nextDay^[i] cur) := by
  intro n
  induction n with
  | zero => intro cur e _ _ _; simp [getDaysInRangeAux]
  | succ n ih =>
    intro cur e hc he hn
    have hle : dayNumber cur ≤ dayNumber e := by omega
    have hcur : dateLeB cur e = true := (dateLeB_iff_dayNumber cur e hc he).mpr hle
    rw [getDaysInRangeAux, if_pos hcur]
    have hnv := validDate_nextDay cur hc
    have hnd := dayNumber_nextDay cur hc
    rw [ih (nextDay cur) e hnv he (by omega)]
    rw [List.range_succ_eq_map]
    simp only [List.map_cons, List.map_map, Function.iterate_zero_apply, List.cons.injEq, true_and]
    apply List.map_congr_left
    intro i _
    simp [Function.comp, Function.iterate_succ_apply]

/-- C6: on valid dates, `getDaysInRange a b` enumerates exactly the dates from
`a` to `b` inclusive in strictly ascending (string) order — its length is the
number of elapsed days plus one, it starts at `a`, ends at `b`, contains
precisely the valid dates between `a` and `b` — and it is empty when
`a > b`. -/
theorem getDaysInRange_correct (a b : Date) (ha : ValidDate a) (hb : ValidDate b) :
    (dateLeB a b = false → getDaysInRange a b = [])
    ∧ (dateLeB a b = true →
        (getDaysInRange a b).length = (dayNumber b - dayNumber a) + 1
        ∧ (getDaysInRange a b).head? = some a
        ∧ (getDaysInRange a b).getLast? = some b
        ∧ List.Chain' (fun x y => dateLtB x y = true) (getDaysInRange a b)
        ∧ (∀ x ∈ getDaysInRange a b,
            ValidDate x ∧ dateLeB a x = true ∧ dateLeB x b = true)
        ∧ (∀ x : Date, ValidDate x → dateLeB a x = true → dateLeB x b = true →
            x ∈ getDaysInRange a b)) := by
  constructor
  · intro hgt
    have : ¬ dayNumber a ≤ dayNumber b := by
      intro hle
      rw [(dateLeB_iff_dayNumber a b ha hb).mpr hle] at hgt
      simp at hgt
    unfold getDaysInRange
    have hfuel : dayNumber b + 1 - dayNumber a = 0 := by omega
    rw [hfuel]
    rfl
  · intro hle
    have hle' : dayNumber a ≤ dayNumber b := (dateLeB_iff_dayNumber a b ha hb).mp hle
    have hfuel : dayNumber b + 1 - dayNumber a = (dayNumber b - dayNumber a) + 1 := by
      omega
    have hmain : getDaysInRange a b =
        (List.range ((dayNumber b - dayNumber a) + 1)).map (fun i => nextDay^[i] a) := by
      unfold getDaysInRange
      rw [hfuel]
      exact getDaysInRangeAux_eq _ a b ha hb hfuel
    set n := dayNumber b - dayNumber a with hndef
    have hiter := nextDay_iter a ha
    have hlast_eq : nextDay^[n] a = b := by
      apply dayNumber_inj _ _ (hiter n).1 hb
      rw [(hiter n).2]
      omega
    refine ⟨?_, ?_, ?_, ?_, ?_, ?_⟩
    · rw [hmain]; simp
    · rw [hmain, List.range_succ_eq_map]
      simp
    · rw [hmain, List.range_succ]
      rw [List.map_append]
      simp [hlast_eq]
    · rw [hmain, List.chain'_map, List.chain'_range_succ]
      intro m hm
      apply dateLtB_of_dayNumber_lt _ _ (hiter m).1 (hiter (m + 1)).1
      rw [(hiter m).2, (hiter (m + 1)).2]
      omega
    · intro x hx
      rw [hmain] at hx
      simp only [List.mem_map, List.mem_range] at hx
      obtain ⟨i, hi, rfl⟩ := hx
      refine ⟨(hiter i).1, ?_, ?_⟩
      · rw [dateLeB_iff_dayNumber a _ ha (hiter i).1, (hiter i).2]
        omega
      · rw [dateLeB_iff_dayNumber _ b (hiter i).1 hb, (hiter i).2]
        omega
    · intro x hxv hax hxb
      have h1 : dayNumber a ≤ dayNumber x := (dateLeB_iff_dayNumber a x ha hxv).mp hax
      have h2 : dayNumber x ≤ dayNumber b := (dateLeB_iff_dayNumber x b hxv hb).mp hxb
      rw [hmain]
      simp only [List.mem_map, List.mem_range]
      refine ⟨dayNumber x - dayNumber a, by omega, ?_⟩
      apply dayNumber_inj _ _ (hiter _).1 hxv
      rw [(hiter _).2]
      omega

theorem getDaysInRange_correct_witness :
    ValidDate ⟨2024, 2, 27⟩ ∧ ValidDate ⟨2024, 3, 2⟩ ∧
      dateLeB ⟨2024, 2, 27⟩ ⟨2024, 3, 2⟩ = true ∧
      ((getDaysInRange ⟨2024, 2, 27⟩ ⟨2024, 3, 2⟩).length =
          (dayNumber ⟨2024, 3, 2⟩ - dayNumber ⟨2024, 2, 27⟩) + 1
        ∧ (getDaysInRange ⟨2024, 2, 27⟩ ⟨2024, 3, 2⟩).head? = some ⟨2024, 2, 27⟩
        ∧ (getDaysInRange ⟨2024, 2, 27⟩ ⟨2024, 3, 2⟩).getLast? = some ⟨2024, 3, 2⟩
        ∧ List.Chain' (fun x y => dateLtB x y = true)
            (getDaysInRange ⟨2024, 2, 27⟩ ⟨2024, 3, 2⟩)
        ∧ (∀ x ∈ getDaysInRange ⟨2024, 2, 27⟩ ⟨2024, 3, 2⟩,
            ValidDate x ∧ dateLeB ⟨2024, 2, 27⟩ x = true ∧ dateLeB x ⟨2024, 3, 2⟩ = true)
        ∧ (∀ x : Date, ValidDate x → dateLeB ⟨2024, 2, 27⟩ x = true →
            dateLeB x ⟨2024, 3, 2⟩ = true →
            x ∈ getDaysInRange ⟨2024, 2, 27⟩ ⟨2024, 3, 2⟩)) :=
  ⟨by decide, by decide, by decide,
    (getDaysInRange_correct ⟨2024, 2, 27⟩ ⟨2024, 3, 2⟩ (by decide) (by decide)).2
      (by decide)⟩

/-- A display cell of the month grid (source: `{ date, day, inMonth }`). -/
structure CalendarDay where
  date : Date
  day : Nat
  inMonth : Bool
deriving DecidableEq, Repr

/-- `getCalendarDays` from `sleepUtils.ts`.  `month` is 0-based as in
JavaScript; the 1-based month used in the date strings is `month + 1`.
`startDow` is `new Date(year, month, 1).getDay()`, `daysInMonth` is
`new Date(year, month + 1, 0).getDate()` and `prevMonthDays` is
`new Date(year, month, 0).getDate()`.  The front loop
(`for i = startDow - 1 down to 0, day = prevMonthDays - i`) is embedded as a
map over `range startDow` with `k = startDow - 1 - i`. -/
def getCalendarDays (year month : Nat) : List CalendarDay :=
  let startDow := dayOfWeek ⟨year, month + 1, 1⟩
  let daysInMonth := monthLen year (month + 1)
  let prevYear := if month == 0 then year - 1 else year
  let prevMonth1 := if month == 0 then 12 else month
  let prevMonthDays := monthLen prevYear prevMonth1
  let front := (List.range startDow).map (fun k =>
    { date := ⟨prevYear, prevMonth1, prevMonthDays - (startDow - 1 - k)⟩,
      day := prevMonthDays - (startDow - 1 - k), inMonth := false : CalendarDay })
  let core := (List.range daysInMonth).map (fun k =>
    { date := ⟨year, month + 1, k + 1⟩, day := k + 1, inMonth := true : CalendarDay })
  let remaining := 7 - (startDow + daysInMonth) % 7
  let nextYear := if month == 11 then year + 1 else year
  let nextMonth1 := if month == 11 then 1 else month + 2
  let back := if remaining < 7 then
      (List.range remaining).map (fun k =>
        { date := ⟨nextYear, nextMonth1, k + 1⟩, day := k + 1, inMonth := false : CalendarDay })
    else []
  front ++ core ++ back

lemma countP_inMonth_map_false {α : Type} (g : α → CalendarDay) (l : List α)
    (h : ∀ x, (g x).inMonth = false) :
    (l.map g).countP (fun c => c.inMonth) = 0 := by
  apply List.countP_eq_zero.mpr
  intro c hc
  simp only [List.mem_map] at hc
  obtain ⟨x, _, rfl⟩ := hc
  simp [h x]

lemma countP_inMonth_map_true {α : Type} (g : α → CalendarDay) (l : List α)
    (h : ∀ x, (g x).inMonth = true) :
    (l.map g).countP (fun c => c.inMonth) = l.length := by
  rw [← List.length_map l g]
  apply List.countP_eq_length.mpr
  intro c hc
  simp only [List.mem_map] at hc
  obtain ⟨x, _, rfl⟩ := hc
  simp [h x]

/-- C5: for every year and (0-based) month, the month grid has a length that
is a multiple of 7; the number of cells marked in-month equals the true
(Gregorian) number of days in that month; in-month cells are exactly days
`1..daysInMonth` of the target month; and every padding cell is a real date
either from the last week of the previous month (front padding) or from the
first week of the next month (back padding), marked not-in-month. -/
theorem getCalendarDays_grid (year month : Nat) (hm : month ≤ 11) :
    (getCalendarDays year month).length % 7 = 0
    ∧ (getCalendarDays year month).countP (fun c => c.inMonth) = monthLen year (month + 1)
    ∧ (∀ c ∈ getCalendarDays year month, c.inMonth = true →
        c.date = ⟨year, month + 1, c.day⟩
          ∧ 1 ≤ c.day ∧ c.day ≤ monthLen year (month + 1))
    ∧ (∀ c ∈ getCalendarDays year month, c.inMonth = false →
        (c.date = ⟨if month == 0 then year - 1 else year,
                   if month == 0 then 12 else month, c.day⟩
          ∧ monthLen (if month == 0 then year - 1 else year)
              (if month == 0 then 12 else month) - 7 < c.day
          ∧ c.day ≤ monthLen (if month == 0 then year - 1 else year)
              (if month == 0 then 12 else month))
        ∨ (c.date = ⟨if month == 11 then year + 1 else year,
                     if month == 11 then 1 else month + 2, c.day⟩
          ∧ 1 ≤ c.day ∧ c.day < 7)) := by
  have hdow : dayOfWeek ⟨year, month + 1, 1⟩ < 7 := Nat.mod_lt _ (by norm_num)
  refine ⟨?_, ?_, ?_, ?_⟩
  · unfold getCalendarDays
    dsimp only
    split_ifs <;>
      simp only [List.length_append, List.length_map, List.length_range,
        List.length_nil] <;>
      omega
  · unfold getCalendarDays
    dsimp only
    split_ifs <;>
      · simp only [List.countP_append]
        rw [countP_inMonth_map_false _ _ (fun x => rfl),
          countP_inMonth_map_true _ _ (fun x => rfl)]
        try rw [countP_inMonth_map_false _ _ (fun x => rfl)]
        simp
  · intro c hc hin
    unfold getCalendarDays at hc
    dsimp only at hc
    rw [List.mem_append, List.mem_append] at hc
    rcases hc with (hc | hc) | hc
    · simp only [List.mem_map] at hc
      obtain ⟨k, _, rfl⟩ := hc
      simp at hin
    · simp only [List.mem_map, List.mem_range] at hc
      obtain ⟨k, hk, rfl⟩ := hc
      refine ⟨rfl, ?_, ?_⟩ <;> dsimp only <;> omega
    · by_cases hrem : 7 - (dayOfWeek ⟨year, month + 1, 1⟩
          + monthLen year (month + 1)) % 7 < 7
      · rw [if_pos hrem] at hc
        simp only [List.mem_map] at hc
        obtain ⟨k, _, rfl⟩ := hc
        simp at hin
      · rw [if_neg hrem] at hc
        simp at hc
  · intro c hc hout
    have hprev : 28 ≤ monthLen (if month == 0 then year - 1 else year)
        (if month == 0 then 12 else month) := by
      rcases Nat.eq_zero_or_pos month with h0 | h0
      · subst h0
        exact (monthLen_bounds (year - 1) 12 (by omega) (by omega)).1
      · have hne : (month == 0) = false := by simp; omega
        rw [hne]
        simp only [Bool.false_eq_true, if_false]
        exact (monthLen_bounds year month (by omega) (by omega)).1
    unfold getCalendarDays at hc
    dsimp only at hc
    rw [List.mem_append, List.mem_append] at hc
    rcases hc with (hc | hc) | hc
    · simp only [List.mem_map, List.mem_range] at hc
      obtain ⟨k, hk, rfl⟩ := hc
      left
      refine ⟨rfl, ?_, ?_⟩ <;> dsimp only <;> omega
    · simp only [List.mem_map, List.mem_range] at hc
      obtain ⟨k, hk, rfl⟩ := hc
      simp at hout
    · by_cases hrem : 7 - (dayOfWeek ⟨year, month + 1, 1⟩
          + monthLen year (month + 1)) % 7 < 7
      · rw [if_pos hrem] at hc
        simp only [List.mem_map, List.mem_range] at hc
        obtain ⟨k, hk, rfl⟩ := hc
        right
        refine ⟨rfl, ?_, ?_⟩ <;> dsimp only <;> omega
      · rw [if_neg hrem] at hc
        simp at hc

theorem getCalendarDays_grid_witness :
    (1 : Nat) ≤ 11 ∧
      (getCalendarDays 2024 1).countP (fun c => c.inMonth) = 29 :=
  ⟨by decide, ((getCalendarDays_grid 2024 1 (by decide)).2.1).trans (by decide)⟩

/-! ## The dashboard aggregator (`pages/dashboard.tsx`)

The source reads "today" from the ambient clock (`new Date()`); following the
specification's explicit-reference-date convention, the embedding threads
`today` as a parameter.  Date-string comparisons (`e.date >= range.start`
etc.) are `dateLeB`/`dateLtB`; `setDate(getDate() - n)` is `subDays n`. -/

lemma prevDay_valid_dayNumber (d : Date) (hd : ValidDate d) (h : 1 ≤ dayNumber d) :
    ValidDate (prevDay d) ∧ dayNumber (prevDay d) + 1 = dayNumber d := by
  obtain ⟨hy, hm1, hm2, hd1, hd2⟩ := hd
  unfold prevDay
  split
  · rename_i hday
    constructor
    · refine ⟨?_, ?_, ?_, ?_, ?_⟩ <;> dsimp only <;> omega
    · unfold dayNumber
      dsimp only
      omega
  · rename_i hday
    have hdeq : d.day = 1 := by omega
    split
    · rename_i hmon
      have hb := monthLen_bounds d.year (d.month - 1) (by omega) (by omega)
      constructor
      · refine ⟨?_, ?_, ?_, ?_, ?_⟩ <;> dsimp only <;> omega
      · unfold dayNumber
        dsimp only
        have hpeel := monthsDays_peel d.year (d.month - 1) (by omega)
        have hpeel2 := monthsDays_peel d.year d.month hm1
        -- (d.month - 1) - 1 = d.month - 2 is already how Lean normalises the
        -- subtraction, so only the two peeling identities are needed
        omega
    · rename_i hmon
      have hmeq : d.month = 1 := by omega
      have hy2 : 2 ≤ d.year := by
        by_contra hy1
        have hyeq : d.year = 1 := by omega
        unfold dayNumber at h
        rw [hyeq, hmeq, hdeq] at h
        norm_num at h
        have h0 : yearDays 0 = 0 := rfl
        have h1 : monthsDays 1 0 = 0 := rfl
        omega
      constructor
      · refine ⟨?_, ?_, ?_, ?_, ?_⟩ <;> dsimp only <;>
          first
          | omega
          | (show _ ≤ monthLen (d.year - 1) 12; have : monthLen (d.year - 1) 12 = 31 := rfl; omega)
      · unfold dayNumber
        dsimp only
        rw [hmeq, hdeq] at *
        have hys := yearDays_peel (d.year - 1) (by omega)
        have hys2 := yearDays_peel d.year (by omega)
        have hms : monthsDays (d.year - 1) 12 = monthsDays (d.year - 1) 11
            + monthLen (d.year - 1) 12 := monthsDays_succ (d.year - 1) 11
        have h31 : monthLen (d.year - 1) 12 = 31 := rfl
        have hz : monthsDays d.year 0 = 0 := rfl
        simp only [show (12 : Nat) - 1 = 11 from rfl, show (1 : Nat) - 1 = 0 from rfl]
        omega

lemma subDays_valid_dayNumber (d : Date) (hd : ValidDate d) (n : Nat)
    (h : n ≤ dayNumber d) :
    ValidDate (subDays n d) ∧ dayNumber (subDays n d) + n = dayNumber d := by
  induction n with
  | zero => exact ⟨by simpa [subDays] using hd, by simp [subDays]⟩
  | succ n ih =>
    obtain ⟨ihv, ihd⟩ := ih (by omega)
    have hstep := prevDay_valid_dayNumber (subDays n d) ihv (by omega)
    unfold subDays at *
    rw [Function.iterate_succ_apply']
    exact ⟨hstep.1, by omega⟩

/-- The week/month toggle of the dashboard (`period` state). -/
inductive Period where
  | week
  | month
deriving DecidableEq, Repr

/-- `dayCount` in the dashboard's `prevPeriodAvg`: 7 for week, 30 for month. -/
def periodDayCount : Period → Nat
  | .week => 7
  | .month => 30

/-- `getWeekRange` / `getMonthRange` from `sleepUtils.ts` with the reference
date passed explicitly: the inclusive range of the last 7 (resp. 30) days
ending today (`start = addDays(end, -6)` resp. `-29`). -/
def periodRange (period : Period) (today : Date) : Date × Date :=
  match period with
  | .week => (subDays 6 today, today)
  | .month => (subDays 29 today, today)

/-- The average total-sleep minutes of a list of entries
(`metrics.reduce((s, m) => s + m.totalSleep, 0) / metrics.length`). -/
def avgTotalSleep (l : List SleepEntry) : ℚ :=
  l.foldl (fun s e => s + ((calculateMetrics e).totalSleep : ℚ)) 0 / l.length

/-- The three trend directions of the dashboard's `sleepTrend`. -/
inductive Trend where
  | up
  | down
  | flat
deriving DecidableEq, Repr

/-- The dashboard's `filtered` memo: entries whose date lies in the current
period's inclusive range (`e.date >= range.start && e.date <= range.end`). -/
def dashboardFiltered (entries : List SleepEntry) (period : Period)
    (today : Date) : List SleepEntry :=
  let range := periodRange period today
  entries.filter (fun e => dateLeB range.1 e.date && dateLeB e.date range.2)

/-- The dashboard's `prevFiltered` (inside `prevPeriodAvg`): entries with
`e.date >= prevStartStr && e.date < prevEnd`, where `prevStart` is the range
start moved back by `dayCount` days and `prevEnd` is the range start. -/
def dashboardPrevFiltered (entries : List SleepEntry) (period : Period)
    (today : Date) : List SleepEntry :=
  let range := periodRange period today
  let prevStart := subDays (periodDayCount period) range.1
  entries.filter (fun e => dateLeB prevStart e.date && dateLtB e.date range.1)

/-- `sleepTrend` from `dashboard.tsx`: `flat` when the current period has no
entries (`averages` is null) or the preceding period has none
(`prevPeriodAvg` is null); otherwise compare the difference of the two
average-sleep values against the ±15-minute thresholds. -/
def sleepTrend (entries : List SleepEntry) (period : Period) (today : Date) : Trend :=
  let filtered := dashboardFiltered entries period today
  let prevFiltered := dashboardPrevFiltered entries period today
  if filtered.length = 0 then .flat
  else if prevFiltered.length = 0 then .flat
  else
    let diff := avgTotalSleep filtered - avgTotalSleep prevFiltered
    if diff > 15 then .up
    else if diff < -15 then .down
    else .flat

lemma periodDayCount_le (period : Period) : periodDayCount period ≤ 30 := by
  cases period <;> simp [periodDayCount]

lemma periodDayCount_pos (period : Period) : 1 ≤ periodDayCount period := by
  cases period <;> simp [periodDayCount]

lemma periodRange_fst (period : Period) (today : Date) :
    (periodRange period today).1 = subDays (periodDayCount period - 1) today := by
  cases period <;> norm_num [periodRange, periodDayCount]

/-- C7: the trend compares the current period's average total sleep with the
average over the immediately preceding period of the same length `n`
(`periodDayCount`): the current window starts `n - 1` days before `today` and
the comparison window is exactly the `n` days just before that start (the
final conjunct characterises membership by day number); when both windows
hold entries the result is `up`/`down`/`flat` by the ±15-minute thresholds,
and whenever the preceding period has no records the trend is `flat`. -/
theorem sleepTrend_spec (entries : List SleepEntry) (period : Period) (today : Date)
    (htoday : ValidDate today) (hroom : 59 ≤ dayNumber today) :
    (dashboardPrevFiltered entries period today = [] →
      sleepTrend entries period today = .flat)
    ∧ (dashboardFiltered entries period today ≠ [] →
        dashboardPrevFiltered entries period today ≠ [] →
        sleepTrend entries period today =
          (if avgTotalSleep (dashboardFiltered entries period today)
              - avgTotalSleep (dashboardPrevFiltered entries period today) > 15
           then .up
           else if avgTotalSleep (dashboardFiltered entries period today)
              - avgTotalSleep (dashboardPrevFiltered entries period today) < -15
           then .down
           else .flat))
    ∧ dayNumber (periodRange period today).1 + (periodDayCount period - 1)
        = dayNumber today
    ∧ (∀ d : Date, ValidDate d →
        ((dateLeB (subDays (periodDayCount period) (periodRange period today).1) d
            && dateLtB d (periodRange period today).1) = true
          ↔ (dayNumber (periodRange period today).1
                ≤ dayNumber d + periodDayCount period
              ∧ dayNumber d < dayNumber (periodRange period today).1))) := by
  have hn30 := periodDayCount_le period
  have hn1 := periodDayCount_pos period
  have hstart := subDays_valid_dayNumber today htoday (periodDayCount period - 1)
    (by omega)
  rw [← periodRange_fst] at hstart
  have hprevStart := subDays_valid_dayNumber (periodRange period today).1 hstart.1
    (periodDayCount period) (by omega)
  refine ⟨?_, ?_, hstart.2, ?_⟩
  · intro hprev
    unfold sleepTrend
    rw [hprev]
    by_cases hf : (dashboardFiltered entries period today).length = 0
    · rw [if_pos hf]
    · rw [if_neg hf]
      simp
  · intro hf hp
    unfold sleepTrend
    rw [if_neg (by simpa using hf), if_neg (by simpa using hp)]
  · intro d hd
    rw [Bool.and_eq_true,
      dateLeB_iff_dayNumber _ d hprevStart.1 hd,
      dateLtB_iff_dayNumber d _ hd hstart.1]
    constructor
    · intro ⟨h1, h2⟩
      omega
    · intro ⟨h1, h2⟩
      omega

theorem sleepTrend_spec_witness :
    ValidDate ⟨1, 3, 1⟩ ∧ 59 ≤ dayNumber ⟨1, 3, 1⟩ ∧
      (dashboardPrevFiltered [] Period.week ⟨1, 3, 1⟩ = [] →
        sleepTrend [] Period.week ⟨1, 3, 1⟩ = .flat) :=
  ⟨by decide, by decide,
    (sleepTrend_spec [] Period.week ⟨1, 3, 1⟩ (by decide) (by decide)).1⟩

/-- The per-group statistics of the dashboard's `calc` helper. -/
structure GroupStats where
  sleep : ℚ
  eff : ℚ
  feel : ℚ
  count : Nat
deriving DecidableEq, Repr

/-- `calc` inside the `correlations` memo of `dashboard.tsx`: zero stats on an
empty group, else the three arithmetic means and the count. -/
def calcGroupStats (arr : List SleepEntry) : GroupStats :=
  if arr.length = 0 then { sleep := 0, eff := 0, feel := 0, count := 0 }
  else
    { sleep := arr.foldl (fun s e => s + ((calculateMetrics e).totalSleep : ℚ)) 0
        / arr.length
      eff := arr.foldl (fun s e => s + (calculateMetrics e).sleepEfficiency) 0
        / arr.length
      feel := arr.foldl (fun s e => s + (e.feeling : ℚ)) 0 / arr.length
      count := arr.length }

/-- The value of the `correlations` memo: one optional with/without pair per
lifestyle factor. -/
structure Correlations where
  drinks : Option (GroupStats × GroupStats)
  weed : Option (GroupStats × GroupStats)
deriving DecidableEq, Repr

/-- `correlations` from `dashboard.tsx`: `null` when fewer than two filtered
nights; otherwise, for each factor, the with/without pair when both subgroups
are non-empty and `null` for that factor otherwise. -/
def correlations (filtered : List SleepEntry) : Option Correlations :=
  if filtered.length < 2 then none
  else
    let withD := filtered.filter (fun e => decide (0 < e.drinks))
    let noD := filtered.filter (fun e => e.drinks == 0)
    let withW := filtered.filter (fun e => e.weed)
    let noW := filtered.filter (fun e => !e.weed)
    some
      { drinks :=
          if withD.length > 0 && noD.length > 0 then
            some (calcGroupStats withD, calcGroupStats noD)
          else none
        weed :=
          if withW.length > 0 && noW.length > 0 then
            some (calcGroupStats withW, calcGroupStats noW)
          else none }

lemma length_filter_add_length_filter_not {α : Type} (l : List α) (p : α → Bool) :
    (l.filter p).length + (l.filter (fun x => !p x)).length = l.length := by
  induction l with
  | nil => simp
  | cons x xs ih =>
    by_cases hx : p x = true
    · simp [List.filter_cons, hx, ih]
      omega
    · simp only [List.filter_cons, hx, Bool.false_eq_true, if_false,
        Bool.not_eq_true', hx, if_true]
      simp [hx]
      omega

/-- C8: a factor split is emitted (the overall result is non-null and that
factor's entry is non-null) precisely when both the has-factor and the
lacks-factor subgroups are non-empty; with either subgroup empty nothing is
emitted for that factor. -/
theorem correlations_split_iff (filtered : List SleepEntry) :
    ((∃ c, correlations filtered = some c ∧ c.drinks.isSome = true)
      ↔ (filtered.filter (fun e => decide (0 < e.drinks)) ≠ []
          ∧ filtered.filter (fun e => e.drinks == 0) ≠ []))
    ∧ ((∃ c, correlations filtered = some c ∧ c.weed.isSome = true)
      ↔ (filtered.filter (fun e => e.weed) ≠ []
          ∧ filtered.filter (fun e => !e.weed) ≠ [])) := by
  have hdrinks : ∀ e : SleepEntry, (e.drinks == 0) = !(decide (0 < e.drinks)) := by
    intro e
    rcases e.drinks with _ | n <;> simp
  have hpartD : (filtered.filter (fun e => decide (0 < e.drinks))).length
      + (filtered.filter (fun e => e.drinks == 0)).length = filtered.length := by
    have h := length_filter_add_length_filter_not filtered
      (fun e => decide (0 < e.drinks))
    rw [List.filter_congr (fun e _ => hdrinks e)]
    exact h
  have hpartW : (filtered.filter (fun e => e.weed)).length
      + (filtered.filter (fun e => !e.weed)).length = filtered.length :=
    length_filter_add_length_filter_not filtered (fun e => e.weed)
  by_cases h2 : filtered.length < 2
  · have hnone : correlations filtered = none := by rw [correlations, if_pos h2]
    constructor
    · constructor
      · rintro ⟨c, hc, _⟩
        rw [hnone] at hc
        exact absurd hc (by simp)
      · rintro ⟨hw, hn⟩
        have hw' := List.length_pos.mpr hw
        have hn' := List.length_pos.mpr hn
        omega
    · constructor
      · rintro ⟨c, hc, _⟩
        rw [hnone] at hc
        exact absurd hc (by simp)
      · rintro ⟨hw, hn⟩
        have hw' := List.length_pos.mpr hw
        have hn' := List.length_pos.mpr hn
        omega
  · have hcor : correlations filtered = some
        { drinks :=
            if (filtered.filter (fun e => decide (0 < e.drinks))).length > 0
                && (filtered.filter (fun e => e.drinks == 0)).length > 0 then
              some (calcGroupStats (filtered.filter (fun e => decide (0 < e.drinks))),
                calcGroupStats (filtered.filter (fun e => e.drinks == 0)))
            else none
          weed :=
            if (filtered.filter (fun e => e.weed)).length > 0
                && (filtered.filter (fun e => !e.weed)).length > 0 then
              some (calcGroupStats (filtered.filter (fun e => e.weed)),
                calcGroupStats (filtered.filter (fun e => !e.weed)))
            else none } := by
      rw [correlations, if_neg h2]
    constructor
    · constructor
      · rintro ⟨c, hc, hsome⟩
        rw [hcor] at hc
        injection hc with hc
        subst hc
        by_cases hcond : ((filtered.filter (fun e => decide (0 < e.drinks))).length > 0
            && (filtered.filter (fun e => e.drinks == 0)).length > 0 : Bool) = true
        · rw [Bool.and_eq_true, decide_eq_true_eq, decide_eq_true_eq] at hcond
          constructor
          · intro hnil
            rw [hnil] at hcond
            simp at hcond
          · intro hnil
            rw [hnil] at hcond
            simp at hcond
        · rw [if_neg hcond] at hsome
          simp at hsome
      · rintro ⟨hw, hn⟩
        have hw' := List.length_pos.mpr hw
        have hn' := List.length_pos.mpr hn
        have hcond : ((filtered.filter (fun e => decide (0 < e.drinks))).length > 0
            && (filtered.filter (fun e => e.drinks == 0)).length > 0 : Bool) = true := by
          rw [Bool.and_eq_true, decide_eq_true_eq, decide_eq_true_eq]
          omega
        refine ⟨_, hcor, ?_⟩
        rw [if_pos hcond]
        rfl
    · constructor
      · rintro ⟨c, hc, hsome⟩
        rw [hcor] at hc
        injection hc with hc
        subst hc
        by_cases hcond : ((filtered.filter (fun e => e.weed)).length > 0
            && (filtered.filter (fun e => !e.weed)).length > 0 : Bool) = true
        · rw [Bool.and_eq_true, decide_eq_true_eq, decide_eq_true_eq] at hcond
          constructor
          · intro hnil
            rw [hnil] at hcond
            simp at hcond
          · intro hnil
            rw [hnil] at hcond
            simp at hcond
        · rw [if_neg hcond] at hsome
          simp at hsome
      · rintro ⟨hw, hn⟩
        have hw' := List.length_pos.mpr hw
        have hn' := List.length_pos.mpr hn
        have hcond : ((filtered.filter (fun e => e.weed)).length > 0
            && (filtered.filter (fun e => !e.weed)).length > 0 : Bool) = true := by
          rw [Bool.and_eq_true, decide_eq_true_eq, decide_eq_true_eq]
          omega
        refine ⟨_, hcor, ?_⟩
        rw [if_pos hcond]
        rfl
